import Mathlib

/-!
Verification development for the Aether-Lib peer-to-peer transport library.

This file gives a shallow embedding, in Lean 4, of the parts of the Rust
sources that the specification's claims are about:

* `src/packet.rs` — the packet wire codec (`Packet::compile`,
  `impl From<Vec<u8>> for Packet`, `PacketFlags`, `PType`);
* `src/acknowledgement.rs` — `AcknowledgementCheck` and
  `AcknowledgementList` (the acknowledgment bookkeeping);
* `src/link/receivethread.rs` — `OrderList` and the receive-loop routing;
* `src/link/sendthread.rs` — the send loop's batch/keepalive handling;
* `src/link/decryptionthread.rs` — the decryption worker loop;
* `src/peer/authentication.rs` — the nonce challenge.

Machine integers (`u8`/`u16`/`u32`) are modelled as `Nat`; truncating casts
(`as u8`) are written `% 256`, and a Rust operation that panics (slice
index out of bounds, explicit `panic!`, arithmetic underflow on an
unsigned subtraction) is modelled by an `Option` result, `none` standing
for the panic.  Rust `HashMap`s are modelled as association lists with
first-occurrence lookup; `HashMap::insert` removes the old binding and
conses the new one, which preserves the map semantics.
-/

/-! ## Packet codec (`src/packet.rs`) -/

/-- `PType` enum from `src/packet.rs` (no explicit discriminants in the
Rust source, so the default discriminants are 0,1,2,3,4). -/
inductive PType where
  | Data
  | AckOnly
  | Initiation
  | KeyExchange
  | Extended
deriving DecidableEq

/-- The value of the Rust cast `p_type as u8` (default enum
discriminants): `Data=0, AckOnly=1, Initiation=2, KeyExchange=3,
Extended=4`.  This is what `PacketFlags::get_byte` actually uses. -/
def PType.discriminant : PType → Nat
  | .Data => 0
  | .AckOnly => 1
  | .Initiation => 2
  | .KeyExchange => 3
  | .Extended => 4

/-- `impl From<PType> for u8` in `src/packet.rs`: the *intended* wire
numbering (`Data=0, AckOnly=1, Initiation=2, KeyExchange=7,
Extended=15`).  Note it differs from `PType.discriminant` at
`KeyExchange` and `Extended`; `get_byte` does not use this impl. -/
def PType.intoU8 : PType → Nat
  | .Data => 0
  | .AckOnly => 1
  | .Initiation => 2
  | .KeyExchange => 7
  | .Extended => 15

/-- `impl From<u8> for PType` in `src/packet.rs`:
`0→Data, 1→AckOnly, 2→Initiation, 7→KeyExchange, _→Extended`. -/
def PType.fromU8 (b : Nat) : PType :=
  if b = 0 then .Data
  else if b = 1 then .AckOnly
  else if b = 2 then .Initiation
  else if b = 7 then .KeyExchange
  else .Extended

/-- `PacketFlags` from `src/packet.rs`. -/
structure PacketFlags where
  p_type : PType
  ack : Bool
  enc : Bool
deriving DecidableEq

/-- `PacketFlags::get_byte`: `byte |= (p_type as u8) << 4`, bit 3 for
`ack`, bit 2 for `enc`.  The cast uses the default discriminants. -/
def PacketFlags.get_byte (f : PacketFlags) : Nat :=
  (f.p_type.discriminant <<< 4) |||
    (if f.ack then 1 <<< 3 else 0) |||
    (if f.enc then 1 <<< 2 else 0)

/-- `impl From<u8> for PacketFlags` in `src/packet.rs`. -/
def PacketFlags.fromU8 (byte : Nat) : PacketFlags :=
  { p_type := PType.fromU8 ((byte >>> 4) &&& 0x0F)
    ack := (byte >>> 3) &&& 0x01 == 1
    enc := (byte >>> 2) &&& 0x01 == 1 }

/-- `Acknowledgement` from `src/acknowledgement.rs`: `ack_begin : u32`,
`ack_end`, `miss_count` and the `miss` entries each serialized as one
byte by `Packet::compile`. -/
structure Acknowledgement where
  ack_begin : Nat
  ack_end : Nat
  miss_count : Nat
  miss : List Nat
deriving DecidableEq

/-- `PacketMeta` from `src/packet.rs` (`delay_ms : u64`,
`retry_count : i16`); in-memory only, never serialized. -/
structure PacketMeta where
  delay_ms : Nat
  retry_count : Int
deriving DecidableEq

/-- `Packet` from `src/packet.rs`. -/
structure Packet where
  flags : PacketFlags
  sequence : Nat
  ack : Acknowledgement
  payload : List Nat
  is_meta : Bool
  meta : PacketMeta
deriving DecidableEq

/-- `Packet::new` from `src/packet.rs`. -/
def Packet.new (p_type : PType) (sequence : Nat) : Packet :=
  { flags := { p_type := p_type, ack := false, enc := false }
    sequence := sequence
    ack := { ack_begin := 0, ack_end := 0, miss_count := 0, miss := [] }
    payload := []
    is_meta := false
    meta := { delay_ms := 0, retry_count := 0 } }

/-- `Packet::set_meta`. -/
def Packet.set_meta (p : Packet) (meta : PacketMeta) : Packet :=
  { p with is_meta := true, meta := meta }

/-- `Packet::add_ack`: stores the ack summary and sets the `ack` flag. -/
def Packet.add_ack (p : Packet) (ack : Acknowledgement) : Packet :=
  { p with ack := ack, flags := { p.flags with ack := true } }

/-- `Packet::set_enc` (used by the link and decryption threads). -/
def Packet.set_enc (p : Packet) (enc : Bool) : Packet :=
  { p with flags := { p.flags with enc := enc } }

/-- `Packet::append_payload`. -/
def Packet.append_payload (p : Packet) (payload : List Nat) : Packet :=
  { p with payload := p.payload ++ payload }

/-- `compile_u32` from `src/util.rs`: big-endian bytes of a `u32` via
shifts and truncating `as u8` casts. -/
def compile_u32 (nu32 : Nat) : List Nat :=
  [(nu32 >>> 24) % 256, (nu32 >>> 16) % 256, (nu32 >>> 8) % 256, nu32 % 256]

/-- `Packet::compile` from `src/packet.rs`: sequence (4B BE), ack_begin
(4B BE), ack_end (1B), flags byte, miss_count (1B), `miss` entries, then
the payload. -/
def Packet.compile (p : Packet) : List Nat :=
  compile_u32 p.sequence ++ compile_u32 p.ack.ack_begin ++
    [p.ack.ack_end] ++ [p.flags.get_byte] ++ [p.ack.miss_count] ++
    p.ack.miss ++ p.payload

/-- `u32::from_be_bytes` applied to a 4-byte big-endian slice. -/
def u32FromBe (b0 b1 b2 b3 : Nat) : Nat :=
  b0 * 2 ^ 24 + b1 * 2 ^ 16 + b2 * 2 ^ 8 + b3

/-- `impl From<Vec<u8>> for Packet` in `src/packet.rs`.  The Rust code
indexes `bytes[0..4]`, …, `bytes[10]` and
`bytes[11..11 + miss_count]` without any length check; an out-of-bounds
slice panics, modelled here by `none`.  Inputs of length ≥ 11 whose
`miss` list fits are parsed, everything after the miss list being
payload. -/
def Packet.fromBytes (bytes : List Nat) : Option Packet :=
  if bytes.length < 11 then none
  else if bytes.length < 11 + bytes.getD 10 0 then none
  else
    some
      { flags := PacketFlags.fromU8 (bytes.getD 9 0)
        sequence :=
          u32FromBe (bytes.getD 0 0) (bytes.getD 1 0) (bytes.getD 2 0)
            (bytes.getD 3 0)
        ack :=
          { ack_begin :=
              u32FromBe (bytes.getD 4 0) (bytes.getD 5 0) (bytes.getD 6 0)
                (bytes.getD 7 0)
            ack_end := bytes.getD 8 0
            miss_count := bytes.getD 10 0
            miss := (bytes.drop 11).take (bytes.getD 10 0) }
        payload := bytes.drop (11 + bytes.getD 10 0)
        is_meta := false
        meta := { delay_ms := 0, retry_count := 0 } }

/-! ### C1: the compile/parse round trip -/

/-- C1 (code_bug evaluation): the claim `parse(compile p) = p` fails for
`KeyExchange` packets.  `PacketFlags::get_byte` writes the raw cast
discriminant (`KeyExchange as u8 = 3`) into the type nibble, while the
parser's `From<u8> for PType` maps `3` to `Extended` (only `7` maps back
to `KeyExchange`), contradicting the file's own `From<PType> for u8`
conversion.  Evaluated on the concrete packet
`Packet::new(KeyExchange, 1)` (empty payload, so any MTU bound holds),
the round trip yields `p_type = Extended ≠ KeyExchange`. -/
theorem compile_parse_keyexchange_mismatch :
    (Packet.fromBytes (Packet.new PType.KeyExchange 1).compile).map
        (fun q => q.flags.p_type) = some PType.Extended ∧
      PType.Extended ≠ PType.KeyExchange ∧
      (Packet.new PType.KeyExchange 1).flags.p_type.discriminant = 3 ∧
      PType.intoU8 PType.KeyExchange = 7 := by
  refine ⟨?_, by decide, rfl, rfl⟩
  decide

/-! ### C6: parse validation -/

/-- C6 evaluation: `Packet::from` succeeds exactly on inputs with
`len ≥ 11` and `len ≥ 11 + bytes[10]` (`miss_count`), the remainder
being payload.  On shorter inputs the Rust code *panics* on an
out-of-bounds slice (`bytes[0..4]` already panics on a 1-byte datagram)
instead of rejecting them as malformed; the panic is the `none` case
here. -/
theorem fromBytes_isSome_iff (bytes : List Nat) :
    (Packet.fromBytes bytes).isSome =
      (decide (11 ≤ bytes.length) &&
        decide (11 + bytes.getD 10 0 ≤ bytes.length)) := by
  unfold Packet.fromBytes
  by_cases h : bytes.length < 11
  · rw [if_pos h]
    have : ¬ 11 ≤ bytes.length := Nat.not_le.mpr h
    simp [this]
  · rw [if_neg h]
    by_cases h2 : bytes.length < 11 + bytes.getD 10 0
    · rw [if_pos h2]
      have h1 : 11 ≤ bytes.length := Nat.not_lt.mp h
      have h3 : ¬ (11 + bytes[10]?.getD 0 ≤ bytes.length) := by
        simpa [List.getD_eq_getElem?_getD] using Nat.not_le.mpr h2
      simp [h1, h3]
    · rw [if_neg h2]
      have h1 : 11 ≤ bytes.length := Nat.not_lt.mp h
      have h3 : 11 + bytes[10]?.getD 0 ≤ bytes.length := by
        simpa [List.getD_eq_getElem?_getD] using Nat.not_lt.mp h2
      simp [h1, h3]

/-! ## Association-list model of `std::collections::HashMap<u32, bool>` -/

/-- `HashMap::get`: first-occurrence lookup in an association list. -/
def lookupA {α : Type} : List (Nat × α) → Nat → Option α
  | [], _ => none
  | (k, v) :: rest, key => if k = key then some v else lookupA rest key

/-- `HashMap::remove`: drop the (first) binding of a key. -/
def eraseKeyA {α : Type} : List (Nat × α) → Nat → List (Nat × α)
  | [], _ => []
  | (k, v) :: rest, key => if k = key then rest else (k, v) :: eraseKeyA rest key

/-- `HashMap::insert`: replace the binding of a key. -/
def insertA {α : Type} (l : List (Nat × α)) (k : Nat) (v : α) : List (Nat × α) :=
  (k, v) :: eraseKeyA l k

theorem lookupA_insertA_self {α : Type} (l : List (Nat × α)) (k : Nat) (v : α) :
    lookupA (insertA l k v) k = some v := by
  simp [insertA, lookupA]

theorem lookupA_eraseKeyA_ne {α : Type} {s k : Nat} (l : List (Nat × α)) (h : s ≠ k) :
    lookupA (eraseKeyA l k) s = lookupA l s := by
  induction l with
  | nil => rfl
  | cons hd tl ih =>
    obtain ⟨k', v'⟩ := hd
    by_cases hk : k' = k
    · subst hk
      have hks : ¬ (k' = s) := fun hs => h hs.symm
      simp [eraseKeyA, lookupA, hks]
    · by_cases hs : k' = s
      · simp [eraseKeyA, hk, lookupA, hs, h]
      · simp [eraseKeyA, hk, lookupA, hs, ih]

theorem lookupA_insertA_ne {α : Type} {s k : Nat} (l : List (Nat × α)) (v : α) (h : s ≠ k) :
    lookupA (insertA l k v) s = lookupA l s := by
  simp only [insertA, lookupA]
  rw [if_neg (fun hs : k = s => h hs.symm)]
  exact lookupA_eraseKeyA_ne l h

theorem eraseKeyA_length_lt {α : Type} {l : List (Nat × α)} {k : Nat} {v : α}
    (h : lookupA l k = some v) : (eraseKeyA l k).length < l.length := by
  induction l with
  | nil => simp [lookupA] at h
  | cons hd tl ih =>
    obtain ⟨k', v'⟩ := hd
    by_cases hk : k' = k
    · simp [eraseKeyA, hk]
    · simp [lookupA, hk] at h
      simp [eraseKeyA, hk]
      exact ih h

theorem lookupA_mem {α : Type} {l : List (Nat × α)} {k : Nat} {v : α}
    (h : lookupA l k = some v) : (k, v) ∈ l := by
  induction l with
  | nil => simp [lookupA] at h
  | cons hd tl ih =>
    obtain ⟨k', v'⟩ := hd
    by_cases hk : k' = k
    · subst hk
      simp [lookupA] at h
      simp [h]
    · simp [lookupA, hk] at h
      exact List.mem_cons_of_mem _ (ih h)

theorem mem_eraseKeyA {α : Type} {l : List (Nat × α)} {k : Nat} {kv : Nat × α}
    (h : kv ∈ eraseKeyA l k) : kv ∈ l := by
  induction l with
  | nil => simp [eraseKeyA] at h
  | cons hd tl ih =>
    obtain ⟨k', v'⟩ := hd
    by_cases hk : k' = k
    · simp [eraseKeyA, hk] at h
      exact List.mem_cons_of_mem _ h
    · simp [eraseKeyA, hk] at h
      rcases h with h | h
      · simp [h]
      · exact List.mem_cons_of_mem _ (ih h)

theorem mem_insertA {α : Type} {l : List (Nat × α)} {k : Nat} {v : α} {kv : Nat × α}
    (h : kv ∈ insertA l k v) : kv = (k, v) ∨ kv ∈ l := by
  simp only [insertA, List.mem_cons] at h
  rcases h with h | h
  · exact Or.inl h
  · exact Or.inr (mem_eraseKeyA h)

/-! ## `AcknowledgementCheck` (`src/acknowledgement.rs`) -/

/-- `AcknowledgementCheck`: threshold `begin` plus a sparse map of
acknowledged sequence numbers above it. -/
structure AcknowledgementCheck where
  begin : Nat
  list : List (Nat × Bool)
deriving DecidableEq

/-- `AcknowledgementCheck::new`. -/
def AcknowledgementCheck.new (begin_ : Nat) : AcknowledgementCheck :=
  { begin := begin_, list := [] }

/-- `AcknowledgementCheck::check`: true iff `ack ≤ begin` or the map
holds `true` for `ack`. -/
def AcknowledgementCheck.check (c : AcknowledgementCheck) (ack : Nat) : Bool :=
  if ack ≤ c.begin then true
  else match lookupA c.list ack with
    | none => false
    | some v => v

theorem AcknowledgementCheck.lookup_of_check {c : AcknowledgementCheck} {x : Nat}
    (h : c.check x = true) (hx : c.begin < x) : lookupA c.list x = some true := by
  unfold AcknowledgementCheck.check at h
  rw [if_neg (Nat.not_le.mpr hx)] at h
  cases hl : lookupA c.list x with
  | none => rw [hl] at h; simp at h
  | some v => rw [hl] at h; simp at h; rw [h]

/-- `AcknowledgementCheck::update_begin`: advance `begin` over
consecutive acknowledged values, removing them from the map. -/
def AcknowledgementCheck.update_begin (c : AcknowledgementCheck) : AcknowledgementCheck :=
  if h : c.check (c.begin + 1) then
    AcknowledgementCheck.update_begin
      { begin := c.begin + 1, list := eraseKeyA c.list (c.begin + 1) }
  else c
termination_by c.list.length
decreasing_by
  exact eraseKeyA_length_lt (AcknowledgementCheck.lookup_of_check h (Nat.lt_succ_self _))

/-- `AcknowledgementCheck::insert`. -/
def AcknowledgementCheck.insert (c : AcknowledgementCheck) (ack : Nat) :
    AcknowledgementCheck :=
  AcknowledgementCheck.update_begin
    (if c.begin < ack then { c with list := insertA c.list ack true } else c)

/-- The body of the `for i in 0..(ack.ack_end + 1)` loop of
`AcknowledgementCheck::acknowledge`: insert `i + ack_begin` unless the
`missing` map holds `true` for offset `i`. -/
def ackBody (missing : List (Nat × Bool)) (ack_begin : Nat)
    (acc : AcknowledgementCheck) (i : Nat) : AcknowledgementCheck :=
  match lookupA missing i with
  | none => acc.insert (i + ack_begin)
  | some false => acc.insert (i + ack_begin)
  | some true => acc

/-- `AcknowledgementCheck::acknowledge`: catch-up inserts over
`[begin, ack.ack_begin]` when `begin < ack.ack_begin` (the loop bounds
are evaluated once, so the range is fixed), then inserts every offset of
`0..=ack.ack_end` whose entry in the map built from `ack.miss` is not
`true`. -/
def AcknowledgementCheck.acknowledge (c : AcknowledgementCheck) (ack : Acknowledgement) :
    AcknowledgementCheck :=
  (List.range (ack.ack_end + 1)).foldl
    (ackBody (ack.miss.foldl (fun m i => insertA m i true) []) ack.ack_begin)
    (if c.begin < ack.ack_begin then
      (List.range' c.begin (ack.ack_begin + 1 - c.begin)).foldl
        AcknowledgementCheck.insert c
    else c)

theorem AcknowledgementCheck.check_of_le (c : AcknowledgementCheck) {s : Nat}
    (h : s ≤ c.begin) : c.check s = true := by
  unfold AcknowledgementCheck.check
  rw [if_pos h]

/-- `update_begin` never turns an acknowledged sequence number into an
unacknowledged one: it advances `begin` exactly over the keys it
removes. -/
theorem AcknowledgementCheck.update_begin_check_mono (c : AcknowledgementCheck) :
    ∀ s, c.check s = true → (c.update_begin).check s = true := by
  induction c using AcknowledgementCheck.update_begin.induct with
  | case1 c h ih =>
    intro s hs
    unfold AcknowledgementCheck.update_begin
    rw [dif_pos h]
    apply ih
    by_cases hle : s ≤ c.begin + 1
    · exact check_of_le _ hle
    · have hgt : c.begin < s := by omega
      have hl : lookupA c.list s = some true := lookup_of_check hs hgt
      show AcknowledgementCheck.check
        { begin := c.begin + 1, list := eraseKeyA c.list (c.begin + 1) } s = true
      unfold AcknowledgementCheck.check
      rw [if_neg hle]
      have hne : s ≠ c.begin + 1 := by omega
      rw [lookupA_eraseKeyA_ne _ hne, hl]
  | case2 c h =>
    intro s hs
    unfold AcknowledgementCheck.update_begin
    rw [dif_neg h]
    exact hs

theorem AcknowledgementCheck.insert_check_self (c : AcknowledgementCheck) (ack : Nat) :
    (c.insert ack).check ack = true := by
  unfold AcknowledgementCheck.insert
  by_cases h : c.begin < ack
  · rw [if_pos h]
    apply update_begin_check_mono
    show AcknowledgementCheck.check { c with list := insertA c.list ack true } ack = true
    unfold AcknowledgementCheck.check
    rw [if_neg (Nat.not_le.mpr h)]
    rw [lookupA_insertA_self]
  · rw [if_neg h]
    exact update_begin_check_mono _ _ (check_of_le _ (Nat.not_lt.mp h))

theorem AcknowledgementCheck.insert_check_mono (c : AcknowledgementCheck) (x : Nat)
    {s : Nat} (hs : c.check s = true) : (c.insert x).check s = true := by
  unfold AcknowledgementCheck.insert
  by_cases h : c.begin < x
  · rw [if_pos h]
    apply update_begin_check_mono
    show AcknowledgementCheck.check { c with list := insertA c.list x true } s = true
    unfold AcknowledgementCheck.check at hs ⊢
    by_cases hle : s ≤ c.begin
    · rw [if_pos hle]
    · rw [if_neg hle] at hs ⊢
      by_cases hsx : s = x
      · subst hsx
        rw [lookupA_insertA_self]
      · rw [lookupA_insertA_ne _ _ hsx]
        exact hs
  · rw [if_neg h]
    exact update_begin_check_mono _ _ hs

theorem AcknowledgementCheck.foldl_insert_mono (xs : List Nat)
    (c : AcknowledgementCheck) {s : Nat} (h : c.check s = true) :
    (xs.foldl AcknowledgementCheck.insert c).check s = true := by
  induction xs generalizing c with
  | nil => exact h
  | cons x rest ih => exact ih _ (insert_check_mono _ _ h)

theorem AcknowledgementCheck.foldl_insert_covers (xs : List Nat)
    (c : AcknowledgementCheck) {s : Nat} (h : s ∈ xs) :
    (xs.foldl AcknowledgementCheck.insert c).check s = true := by
  induction xs generalizing c with
  | nil => cases h
  | cons x rest ih =>
    rcases List.mem_cons.mp h with rfl | hmem
    · exact foldl_insert_mono rest _ (insert_check_self _ _)
    · exact ih _ hmem

theorem AcknowledgementCheck.foldl_ackBody_mono (m : List (Nat × Bool)) (b : Nat)
    (xs : List Nat) (c : AcknowledgementCheck) {s : Nat} (h : c.check s = true) :
    (xs.foldl (ackBody m b) c).check s = true := by
  induction xs generalizing c with
  | nil => exact h
  | cons x rest ih =>
    apply ih
    unfold ackBody
    cases hl : lookupA m x with
    | none => exact insert_check_mono _ _ h
    | some v =>
      cases v
      · exact insert_check_mono _ _ h
      · exact h

theorem AcknowledgementCheck.foldl_ackBody_covers (m : List (Nat × Bool)) (b : Nat)
    (xs : List Nat) (c : AcknowledgementCheck) {i : Nat} (hmem : i ∈ xs)
    (hskip : lookupA m i ≠ some true) :
    (xs.foldl (ackBody m b) c).check (i + b) = true := by
  induction xs generalizing c with
  | nil => cases hmem
  | cons x rest ih =>
    rcases List.mem_cons.mp hmem with rfl | hmem'
    · rw [List.foldl_cons]
      apply foldl_ackBody_mono
      unfold ackBody
      cases hl : lookupA m i with
      | none => exact insert_check_self _ _
      | some v =>
        cases v
        · exact insert_check_self _ _
        · exact absurd hl hskip
    · exact ih _ hmem'

/-- Offsets not in `ack.miss` are never marked `true` in the `missing`
map built by `acknowledge`. -/
theorem lookup_missing_not_mem {miss : List Nat} {i : Nat} (h : i ∉ miss) :
    ∀ m, lookupA m i ≠ some true →
      lookupA (miss.foldl (fun m j => insertA m j true) m) i ≠ some true := by
  induction miss with
  | nil => intro m hm; exact hm
  | cons j rest ih =>
    intro m hm
    rw [List.foldl_cons]
    have hij : i ≠ j := fun he => h (he ▸ List.mem_cons_self j rest)
    refine ih (fun hr => h (List.mem_cons_of_mem _ hr)) _ ?_
    rw [lookupA_insertA_ne _ _ hij]
    exact hm

/-! ### C2: `AcknowledgementCheck::acknowledge` coverage -/

/-- C2: after `acknowledge(a)` returns, `check(&s)` is true for every
`s ∈ [a.ack_begin, a.ack_begin + a.ack_end]` whose offset
`s − a.ack_begin` is not listed in `a.miss`, and for every
`s ∈ [begin, a.ack_begin]` where `begin` is the checklist's threshold
before the call. -/
theorem acknowledge_check_covers (c : AcknowledgementCheck) (a : Acknowledgement)
    (s : Nat)
    (h : (a.ack_begin ≤ s ∧ s ≤ a.ack_begin + a.ack_end ∧ (s - a.ack_begin) ∉ a.miss) ∨
      (c.begin ≤ s ∧ s ≤ a.ack_begin)) :
    (c.acknowledge a).check s = true := by
  unfold AcknowledgementCheck.acknowledge
  rcases h with ⟨h1, h2, h3⟩ | ⟨h1, h2⟩
  · have hmem : s - a.ack_begin ∈ List.range (a.ack_end + 1) :=
      List.mem_range.mpr (by omega)
    have hskip :
        lookupA (a.miss.foldl (fun m j => insertA m j true) []) (s - a.ack_begin) ≠
          some true :=
      lookup_missing_not_mem h3 [] (by simp [lookupA])
    have := AcknowledgementCheck.foldl_ackBody_covers _ a.ack_begin _
      (if c.begin < a.ack_begin then
        (List.range' c.begin (a.ack_begin + 1 - c.begin)).foldl
          AcknowledgementCheck.insert c
      else c) hmem hskip
    rwa [Nat.sub_add_cancel h1] at this
  · apply AcknowledgementCheck.foldl_ackBody_mono
    by_cases hb : c.begin < a.ack_begin
    · rw [if_pos hb]
      by_cases hsb : s ≤ c.begin
      · exact AcknowledgementCheck.foldl_insert_mono _ _
          (AcknowledgementCheck.check_of_le _ hsb)
      · refine AcknowledgementCheck.foldl_insert_covers _ _ ?_
        refine List.mem_range'_1.mpr ⟨h1, ?_⟩
        omega
    · rw [if_neg hb]
      exact AcknowledgementCheck.check_of_le _ (by omega)

/-- Witness for C2 at a concrete input: threshold 5, acknowledgement
window `[10, 13]` with offset 2 missing; `s = 11` (offset 1) is
covered. -/
theorem acknowledge_check_covers_witness :
    ((AcknowledgementCheck.new 5).acknowledge
        { ack_begin := 10, ack_end := 3, miss_count := 1, miss := [2] }).check 11 =
      true :=
  acknowledge_check_covers _ _ _ (Or.inl ⟨by decide, by decide, by decide⟩)

/-! ## `AcknowledgementList` (`src/acknowledgement.rs`) -/

/-- `MAX_WINDOW` from `src/acknowledgement.rs`. -/
def MAX_WINDOW : Nat := 65000

/-- `AcknowledgementList`: received sequence numbers within the window
`(ack_begin, ack_begin + ack_end]`, everything at or below `ack_begin`
being implicitly received. -/
structure AcknowledgementList where
  list : List (Nat × Bool)
  ack_begin : Nat
  ack_end : Nat
deriving DecidableEq

/-- `AcknowledgementList::new`: starts with `ack_begin` itself marked in
the map and `ack_end = 0`. -/
def AcknowledgementList.new (ack_begin : Nat) : AcknowledgementList :=
  { list := insertA [] ack_begin true, ack_begin := ack_begin, ack_end := 0 }

/-- `AcknowledgementList::check`: true for `ack ≤ ack_begin`; within the
window `(ack_begin, ack_begin + ack_end]` the map decides; false
outside. -/
def AcknowledgementList.check (l : AcknowledgementList) (ack : Nat) : Bool :=
  if ack ≤ l.ack_begin then true
  else if l.ack_begin < ack ∧ ack ≤ l.ack_begin + l.ack_end then
    match lookupA l.list ack with
    | none => false
    | some v => v
  else false

theorem AcknowledgementList.lookup_of_check_list {l : AcknowledgementList} {x : Nat}
    (h : l.check x = true) (hx : l.ack_begin < x) :
    lookupA l.list x = some true ∧ x ≤ l.ack_begin + l.ack_end := by
  unfold AcknowledgementList.check at h
  rw [if_neg (Nat.not_le.mpr hx)] at h
  by_cases hw : l.ack_begin < x ∧ x ≤ l.ack_begin + l.ack_end
  · rw [if_pos hw] at h
    refine ⟨?_, hw.2⟩
    cases hl : lookupA l.list x with
    | none => rw [hl] at h; simp at h
    | some v => rw [hl] at h; simp at h; rw [h]
  · rw [if_neg hw] at h
    simp at h

/-- `AcknowledgementList::update_begin`: while `ack_begin + 1` checks
true, remove it from the map, advance `ack_begin`, decrease `ack_end`. -/
def AcknowledgementList.update_begin (l : AcknowledgementList) : AcknowledgementList :=
  if h : l.check (l.ack_begin + 1) then
    AcknowledgementList.update_begin
      { list := eraseKeyA l.list (l.ack_begin + 1)
        ack_begin := l.ack_begin + 1
        ack_end := l.ack_end - 1 }
  else l
termination_by l.list.length
decreasing_by
  exact eraseKeyA_length_lt
    (AcknowledgementList.lookup_of_check_list h (Nat.lt_succ_self _)).1

/-- `AcknowledgementList::insert`: `panic!("ack too large …")` (here
`none`) above `ack_begin + MAX_WINDOW`; no-op at or below `ack_begin`;
otherwise mark the sequence, raise `ack_end` to
`max(ack_end, ack − ack_begin)` and run `update_begin`. -/
def AcknowledgementList.insert (l : AcknowledgementList) (ack : Nat) :
    Option AcknowledgementList :=
  if MAX_WINDOW + l.ack_begin < ack then none
  else if l.ack_begin < ack then
    some (AcknowledgementList.update_begin
      { list := insertA l.list ack true
        ack_begin := l.ack_begin
        ack_end :=
          if l.ack_end < ack - l.ack_begin then ack - l.ack_begin else l.ack_end })
  else some l

theorem AcknowledgementList.check_of_le_list (l : AcknowledgementList) {s : Nat}
    (h : s ≤ l.ack_begin) : l.check s = true := by
  unfold AcknowledgementList.check
  rw [if_pos h]

/-- `check` is true inside the window when the map holds `true`. -/
theorem AcknowledgementList.check_mk_window {li : List (Nat × Bool)} {b e s : Nat}
    (h1 : b < s) (h2 : s ≤ b + e) (h3 : lookupA li s = some true) :
    AcknowledgementList.check ⟨li, b, e⟩ s = true := by
  unfold AcknowledgementList.check
  rw [if_neg (Nat.not_le.mpr h1), if_pos ⟨h1, h2⟩, h3]

/-- `update_begin` preserves every checked sequence number: the window
top `ack_begin + ack_end` is unchanged by each compaction step and the
removed keys fall at or below the new `ack_begin`. -/
theorem AcknowledgementList.update_begin_check_mono_list (l : AcknowledgementList) :
    ∀ s, l.check s = true → (l.update_begin).check s = true := by
  induction l using AcknowledgementList.update_begin.induct with
  | case1 l h ih =>
    intro s hs
    unfold AcknowledgementList.update_begin
    rw [dif_pos h]
    apply ih
    have hcond := AcknowledgementList.lookup_of_check_list h (Nat.lt_succ_self _)
    have he : 1 ≤ l.ack_end := by omega
    by_cases hle : s ≤ l.ack_begin + 1
    · exact check_of_le_list _ hle
    · have hgt : l.ack_begin < s := by omega
      have hl := AcknowledgementList.lookup_of_check_list hs hgt
      have hs2 := hl.2
      refine check_mk_window (by omega) (by omega) ?_
      have hne : s ≠ l.ack_begin + 1 := by omega
      rw [lookupA_eraseKeyA_ne _ hne]
      exact hl.1
  | case2 l h =>
    intro s hs
    unfold AcknowledgementList.update_begin
    rw [dif_neg h]
    exact hs

/-- A successful `insert` leaves the inserted sequence checked. -/
theorem AcknowledgementList.insert_check_self_list {l l' : AcknowledgementList} {ack : Nat}
    (h : l.insert ack = some l') : l'.check ack = true := by
  unfold AcknowledgementList.insert at h
  by_cases h1 : MAX_WINDOW + l.ack_begin < ack
  · rw [if_pos h1] at h
    cases h
  · rw [if_neg h1] at h
    by_cases h2 : l.ack_begin < ack
    · rw [if_pos h2] at h
      obtain rfl := Option.some.inj h
      apply update_begin_check_mono_list
      refine check_mk_window h2 (by split_ifs <;> omega) ?_
      exact lookupA_insertA_self _ _ _
    · rw [if_neg h2] at h
      obtain rfl := Option.some.inj h
      exact check_of_le_list _ (Nat.not_lt.mp h2)

/-- A successful `insert` preserves every previously checked sequence:
`ack_begin` never decreases, `ack_begin + ack_end` never decreases, and
no key other than the absorbed ones is removed. -/
theorem AcknowledgementList.insert_check_mono_list {l l' : AcknowledgementList} {x : Nat}
    (h : l.insert x = some l') {s : Nat} (hs : l.check s = true) :
    l'.check s = true := by
  unfold AcknowledgementList.insert at h
  by_cases h1 : MAX_WINDOW + l.ack_begin < x
  · rw [if_pos h1] at h
    cases h
  · rw [if_neg h1] at h
    by_cases h2 : l.ack_begin < x
    · rw [if_pos h2] at h
      obtain rfl := Option.some.inj h
      apply update_begin_check_mono_list
      by_cases hle : s ≤ l.ack_begin
      · exact check_of_le_list _ hle
      · have hgt : l.ack_begin < s := by omega
        have hl := AcknowledgementList.lookup_of_check_list hs hgt
        have hs2 := hl.2
        refine check_mk_window hgt (by split_ifs <;> omega) ?_
        by_cases hsx : s = x
        · subst hsx
          exact lookupA_insertA_self _ _ _
        · rw [lookupA_insertA_ne _ _ hsx]
          exact hl.1
    · rw [if_neg h2] at h
      obtain rfl := Option.some.inj h
      exact hs

/-! ### C3: `AcknowledgementList::insert` behaviour -/

/-- C3 claim-side compaction, following the claim's wording: while
`ack_begin + 1` is marked present in the map, it is removed, `ack_begin`
is incremented by 1 and `ack_end` is decremented by 1. -/
def compactClaim (l : AcknowledgementList) : AcknowledgementList :=
  if h : lookupA l.list (l.ack_begin + 1) = some true then
    compactClaim
      { list := eraseKeyA l.list (l.ack_begin + 1)
        ack_begin := l.ack_begin + 1
        ack_end := l.ack_end - 1 }
  else l
termination_by l.list.length
decreasing_by
  exact eraseKeyA_length_lt h

/-- C3 claim-side marking: mark `seq` present and set `ack_end` to
`max(ack_end, seq − ack_begin)`. -/
def markClaim (l : AcknowledgementList) (seq : Nat) : AcknowledgementList :=
  { list := insertA l.list seq true
    ack_begin := l.ack_begin
    ack_end := max l.ack_end (seq - l.ack_begin) }

/-- On states whose map keys all lie at or below `ack_begin + ack_end`,
the code's `update_begin` loop (whose guard is the windowed `check`)
coincides with the claim's compaction loop (whose guard is plain map
presence). -/
theorem AcknowledgementList.update_begin_eq_compactClaim (l : AcknowledgementList)
    (hInv : ∀ kv ∈ l.list, kv.1 ≤ l.ack_begin + l.ack_end) :
    l.update_begin = compactClaim l := by
  induction l using AcknowledgementList.update_begin.induct with
  | case1 l h ih =>
    have hcond := AcknowledgementList.lookup_of_check_list h (Nat.lt_succ_self _)
    unfold AcknowledgementList.update_begin compactClaim
    rw [dif_pos h, dif_pos hcond.1]
    apply ih
    intro kv hkv
    have hk := hInv kv (mem_eraseKeyA hkv)
    have he : 1 ≤ l.ack_end := by omega
    simp only
    omega
  | case2 l h =>
    have hnl : ¬ lookupA l.list (l.ack_begin + 1) = some true := by
      intro hl
      apply h
      have hmem := lookupA_mem hl
      have hb := hInv _ hmem
      exact check_mk_window (Nat.lt_succ_self _) hb hl
    unfold AcknowledgementList.update_begin compactClaim
    rw [dif_neg h, dif_neg hnl]

/-- C3: `AcknowledgementList::insert(seq)` is a no-op at or below
`ack_begin`; fails (the code's `panic!`, modelled `none`) above
`ack_begin + MAX_WINDOW`; otherwise marks `seq` present, sets `ack_end`
to `max(ack_end, seq − ack_begin)` and compacts as the claim describes.
The hypothesis is the structural invariant of the list (all map keys lie
in the window), which holds for every reachable state. -/
theorem insert_matches_claim (l : AcknowledgementList) (seq : Nat)
    (hInv : ∀ kv ∈ l.list, kv.1 ≤ l.ack_begin + l.ack_end) :
    (seq ≤ l.ack_begin → l.insert seq = some l) ∧
      (l.ack_begin + MAX_WINDOW < seq → l.insert seq = none) ∧
      (l.ack_begin < seq → seq ≤ l.ack_begin + MAX_WINDOW →
        l.insert seq = some (compactClaim (markClaim l seq))) := by
  refine ⟨?_, ?_, ?_⟩
  · intro h
    unfold AcknowledgementList.insert
    rw [if_neg (by omega), if_neg (by omega)]
  · intro h
    unfold AcknowledgementList.insert
    rw [if_pos (by omega)]
  · intro h1 h2
    unfold AcknowledgementList.insert
    rw [if_neg (by omega), if_pos h1]
    have hmark :
        ({ list := insertA l.list seq true
           ack_begin := l.ack_begin
           ack_end :=
             if l.ack_end < seq - l.ack_begin then seq - l.ack_begin
             else l.ack_end } : AcknowledgementList) = markClaim l seq := by
      unfold markClaim
      have : (if l.ack_end < seq - l.ack_begin then seq - l.ack_begin
          else l.ack_end) = max l.ack_end (seq - l.ack_begin) := by
        split_ifs <;> omega
      rw [this]
    rw [hmark]
    rw [AcknowledgementList.update_begin_eq_compactClaim]
    intro kv hkv
    rcases mem_insertA hkv with rfl | hm
    · simp only [markClaim]
      omega
    · have := hInv kv hm
      simp only [markClaim]
      omega

/-- Witness for C3 at a concrete state: the fresh list at 10 satisfies
the window invariant, and inserting 5 (≤ `ack_begin`) is a no-op. -/
theorem insert_matches_claim_witness :
    (AcknowledgementList.new 10).insert 5 = some (AcknowledgementList.new 10) :=
  (insert_matches_claim (AcknowledgementList.new 10) 5 (by decide)).1 (by decide)

/-! ### C5: inserted sequences stay checked -/

/-- Sequential inserts, failing if any single insert fails (the receive
thread performs exactly one `insert` per received packet). -/
def insertAll (l : AcknowledgementList) : List Nat → Option AcknowledgementList
  | [] => some l
  | x :: rest =>
    match l.insert x with
    | none => none
    | some l' => insertAll l' rest

/-- C5: any sequence number `seq` successfully inserted into an
`AcknowledgementList` is still reported received by `check` after any
further sequence of successful inserts, even when compaction has
absorbed `seq` below `ack_begin`. -/
theorem inserted_stays_checked (l : AcknowledgementList) (seq : Nat)
    (l₁ : AcknowledgementList) (xs : List Nat) (l₂ : AcknowledgementList)
    (h1 : l.insert seq = some l₁) (h2 : insertAll l₁ xs = some l₂) :
    l₂.check seq = true := by
  have base := AcknowledgementList.insert_check_self_list h1
  clear h1
  induction xs generalizing l₁ with
  | nil =>
    unfold insertAll at h2
    obtain rfl := Option.some.inj h2
    exact base
  | cons x rest ih =>
    unfold insertAll at h2
    cases hx : l₁.insert x with
    | none => rw [hx] at h2; cases h2
    | some l₁' =>
      rw [hx] at h2
      exact ih _ h2 (AcknowledgementList.insert_check_mono_list hx base)

/-- Witness for C5 at concrete inputs: insert 5 into the fresh list at
10 (a successful no-op insert), then insert 7 (also successful); 5 is
still checked. -/
theorem inserted_stays_checked_witness :
    (AcknowledgementList.new 10).check 5 = true :=
  inserted_stays_checked (AcknowledgementList.new 10) 5
    (AcknowledgementList.new 10) [7] (AcknowledgementList.new 10)
    (by decide) (by decide)

/-! ## `OrderList` and the receive loop (`src/link/receivethread.rs`) -/

/-- `HashMap::remove` returning the removed value, as used by the drain
loop (`self.list.remove(&(self.seq + 1))`). -/
def extractKey {α : Type} : List (Nat × α) → Nat → Option (α × List (Nat × α))
  | [], _ => none
  | (k, v) :: rest, key =>
    if k = key then some (v, rest)
    else
      match extractKey rest key with
      | none => none
      | some (q, l) => some (q, (k, v) :: l)

theorem extractKey_none {α : Type} {l : List (Nat × α)} {k : Nat}
    (h : extractKey l k = none) : lookupA l k = none := by
  induction l with
  | nil => rfl
  | cons hd tl ih =>
    obtain ⟨k', v'⟩ := hd
    by_cases hk : k' = k
    · simp [extractKey, hk] at h
    · simp [extractKey, hk] at h
      cases he : extractKey tl k with
      | none => simp [lookupA, hk, ih he]
      | some q => rw [he] at h; cases h

theorem extractKey_some {α : Type} {l : List (Nat × α)} {k : Nat} {q : α}
    {l' : List (Nat × α)} (h : extractKey l k = some (q, l')) :
    lookupA l k = some q ∧ l'.length + 1 = l.length ∧
      ∀ s, s ≠ k → lookupA l' s = lookupA l s := by
  induction l generalizing l' with
  | nil => cases h
  | cons hd tl ih =>
    obtain ⟨k', v'⟩ := hd
    by_cases hk : k' = k
    · subst hk
      simp [extractKey] at h
      obtain ⟨rfl, rfl⟩ := h
      refine ⟨by simp [lookupA], rfl, ?_⟩
      intro s hs
      have hne : ¬ (k' = s) := fun he => hs he.symm
      simp [lookupA, hne]
    · simp [extractKey, hk] at h
      cases he : extractKey tl k with
      | none => rw [he] at h; cases h
      | some ql =>
        obtain ⟨q', l''⟩ := ql
        rw [he] at h
        simp at h
        obtain ⟨rfl, rfl⟩ := h
        obtain ⟨ih1, ih2, ih3⟩ := ih he
        refine ⟨by simp [lookupA, hk, ih1], by simp [ih2], ?_⟩
        intro s hs
        by_cases hks : k' = s
        · simp [lookupA, hks]
        · simp [lookupA, hks, ih3 s hs]

/-- `OrderList` from `src/link/receivethread.rs`: `seq` is the last
sequence number up to which packets have been ordered
(`next_expected = seq + 1`), `list` buffers out-of-order packets. -/
structure OrderList where
  seq : Nat
  list : List (Nat × Packet)
deriving DecidableEq

/-- `OrderList::new`. -/
def OrderList.new (seq : Nat) : OrderList :=
  { seq := seq, list := [] }

/-- The `loop` of `OrderList::insert`'s `Equal` branch: starting at
`seq`, repeatedly remove `seq + 1` from the map, pushing the removed
packet and advancing `seq`.  Returns the final `seq`, the remaining map
and the drained packets in order. -/
def OrderList.drainLoop (seq : Nat) (list : List (Nat × Packet)) :
    Nat × List (Nat × Packet) × List Packet :=
  if h : (extractKey list (seq + 1)).isSome then
    let ql := (extractKey list (seq + 1)).get h
    let r := OrderList.drainLoop (seq + 1) ql.2
    (r.1, r.2.1, ql.1 :: r.2.2)
  else (seq, list, [])
termination_by list.length
decreasing_by
  have hx : extractKey list (seq + 1) =
      some ((extractKey list (seq + 1)).get h) := (Option.some_get h).symm
  have hlen := (@extractKey_some Packet list (seq + 1)
    ((extractKey list (seq + 1)).get h).1
    ((extractKey list (seq + 1)).get h).2
    (by rw [Prod.mk.eta]; exact hx)).2.1
  omega

theorem OrderList.drainLoop_eq_some {seq : Nat} {list : List (Nat × Packet)}
    {ql : Packet × List (Nat × Packet)} (h : extractKey list (seq + 1) = some ql) :
    OrderList.drainLoop seq list =
      ((OrderList.drainLoop (seq + 1) ql.2).1,
        (OrderList.drainLoop (seq + 1) ql.2).2.1,
        ql.1 :: (OrderList.drainLoop (seq + 1) ql.2).2.2) := by
  conv_lhs => rw [OrderList.drainLoop]
  rw [dif_pos (by simp [h])]
  simp [h]

theorem OrderList.drainLoop_eq_none {seq : Nat} {list : List (Nat × Packet)}
    (h : extractKey list (seq + 1) = none) :
    OrderList.drainLoop seq list = (seq, list, []) := by
  conv_lhs => rw [OrderList.drainLoop]
  rw [dif_neg (by simp [h])]

/-- Result of `OrderList::insert`: `Ok(queue)` with the emitted packets
and new state, `Err(1)` (stored, nothing emitted), or `Err(0)`
(sequence already ordered). -/
inductive OrderInsertResult where
  | ordered (packets : List Packet) (ol : OrderList)
  | buffered (ol : OrderList)
  | duplicate
deriving DecidableEq

/-- `OrderList::insert` from `src/link/receivethread.rs`.  The Rust code
evaluates `packet.sequence - 1` on a `u32` with no guard, so for
`sequence = 0` the subtraction underflows (a panic in a debug build),
modelled by `none`.  Otherwise it compares `self.seq` with
`packet.sequence - 1`: `Less` stores the packet and returns `Err(1)`;
`Equal` pushes the packet, advances `seq` and drains contiguous stored
successors; `Greater` returns `Err(0)`. -/
def OrderList.insert (ol : OrderList) (packet : Packet) : Option OrderInsertResult :=
  if packet.sequence = 0 then none
  else if ol.seq < packet.sequence - 1 then
    some (.buffered { ol with list := insertA ol.list packet.sequence packet })
  else if ol.seq = packet.sequence - 1 then
    some
      (.ordered
        (packet :: (OrderList.drainLoop packet.sequence ol.list).2.2)
        { seq := (OrderList.drainLoop packet.sequence ol.list).1
          list := (OrderList.drainLoop packet.sequence ol.list).2.1 })
  else some .duplicate

/-- `ReceiveThread::order_output`: forwards each packet of an `Ok`
result to the receive queue; does nothing on `Err(1)`; `Err(0)` hits
`panic!("Sequence number too old")` and the underflow inside `insert` is
also a panic, both modelled by `none`. -/
def ReceiveThread.order_output (ol : OrderList) (p : Packet) :
    Option (OrderList × List Packet) :=
  match OrderList.insert ol p with
  | some (.ordered out ol') => some (ol', out)
  | some (.buffered ol') => some (ol', [])
  | some .duplicate => none
  | none => none

theorem OrderList.drainLoop_spec_aux (n : Nat) :
    ∀ (seq : Nat) (list : List (Nat × Packet)), list.length ≤ n →
      (OrderList.drainLoop seq list).1 =
          seq + (OrderList.drainLoop seq list).2.2.length ∧
        (∀ j (hj : j < (OrderList.drainLoop seq list).2.2.length),
          lookupA list (seq + 1 + j) =
            some ((OrderList.drainLoop seq list).2.2.get ⟨j, hj⟩)) ∧
        lookupA list (seq + 1 + (OrderList.drainLoop seq list).2.2.length) = none := by
  induction n with
  | zero =>
    intro seq list hlen
    have hnil : list = [] := List.eq_nil_of_length_eq_zero (Nat.le_zero.mp hlen)
    subst hnil
    rw [OrderList.drainLoop_eq_none
      (show extractKey ([] : List (Nat × Packet)) (seq + 1) = none from rfl)]
    refine ⟨by simp, ?_, by simp [lookupA]⟩
    intro j hj
    simp at hj
  | succ n ih =>
    intro seq list hlen
    cases hx : extractKey list (seq + 1) with
    | none =>
      rw [OrderList.drainLoop_eq_none hx]
      refine ⟨by simp, ?_, ?_⟩
      · intro j hj
        simp at hj
      · simpa using extractKey_none hx
    | some ql =>
      obtain ⟨q, l'⟩ := ql
      obtain ⟨he1, helen, he3⟩ := extractKey_some hx
      rw [OrderList.drainLoop_eq_some hx]
      obtain ⟨ih1, ih2, ih3⟩ := ih (seq + 1) l' (by omega)
      refine ⟨?_, ?_, ?_⟩
      · simp only [List.length_cons]
        omega
      · intro j hj
        cases j with
        | zero => simpa using he1
        | succ j' =>
          have hne : seq + 1 + (j' + 1) ≠ seq + 1 := by omega
          rw [← he3 _ hne]
          have hj' : j' < (OrderList.drainLoop (seq + 1) l').2.2.length := by
            simpa using hj
          have h2 := ih2 j' hj'
          rw [show seq + 1 + (j' + 1) = seq + 1 + 1 + j' by omega]
          simpa using h2
      · have hne :
            seq + 1 + (q :: (OrderList.drainLoop (seq + 1) l').2.2).length ≠
              seq + 1 := by
          simp
        rw [← he3 _ hne]
        have harith :
            seq + 1 + (q :: (OrderList.drainLoop (seq + 1) l').2.2).length =
              seq + 1 + 1 + (OrderList.drainLoop (seq + 1) l').2.2.length := by
          simp only [List.length_cons]
          omega
        rw [harith]
        exact ih3

/-- Characterization of the drain loop: it emits exactly the packets
stored at the contiguous sequence numbers `seq + 1, seq + 2, …`, stops
at the first absent one, and ends with `seq` advanced past the emitted
packets. -/
theorem OrderList.drainLoop_spec (seq : Nat) (list : List (Nat × Packet)) :
    (OrderList.drainLoop seq list).1 =
        seq + (OrderList.drainLoop seq list).2.2.length ∧
      (∀ j (hj : j < (OrderList.drainLoop seq list).2.2.length),
        lookupA list (seq + 1 + j) =
          some ((OrderList.drainLoop seq list).2.2.get ⟨j, hj⟩)) ∧
      lookupA list (seq + 1 + (OrderList.drainLoop seq list).2.2.length) = none :=
  OrderList.drainLoop_spec_aux list.length seq list (Nat.le_refl _)

/-! ### C4: ordering-buffer insert -/

/-- C4 (amended): for a packet with `sequence ≥ 1` (the `u32`
subtraction `sequence − 1` is only defined there, see C10):
* `sequence = next_expected` (`= ol.seq + 1`): the packet is emitted
  first, followed by exactly the contiguously stored successors, and
  `seq` advances past them;
* `sequence > next_expected`: the packet is stored, nothing emitted;
* `sequence < next_expected`: `insert` returns the duplicate error
  `Err(0)` without emitting or storing, and `order_output` *panics* on
  it (`none`) instead of silently dropping the packet. -/
theorem order_insert_cases (ol : OrderList) (p : Packet) (hseq : 1 ≤ p.sequence) :
    (p.sequence = ol.seq + 1 →
      OrderList.insert ol p =
          some
            (.ordered (p :: (OrderList.drainLoop p.sequence ol.list).2.2)
              { seq := (OrderList.drainLoop p.sequence ol.list).1
                list := (OrderList.drainLoop p.sequence ol.list).2.1 }) ∧
        (OrderList.drainLoop p.sequence ol.list).1 =
          p.sequence + (OrderList.drainLoop p.sequence ol.list).2.2.length ∧
        (∀ j (hj : j < (OrderList.drainLoop p.sequence ol.list).2.2.length),
          lookupA ol.list (p.sequence + 1 + j) =
            some ((OrderList.drainLoop p.sequence ol.list).2.2.get ⟨j, hj⟩)) ∧
        lookupA ol.list
          (p.sequence + 1 + (OrderList.drainLoop p.sequence ol.list).2.2.length) =
          none) ∧
      (ol.seq + 1 < p.sequence →
        OrderList.insert ol p =
          some (.buffered { ol with list := insertA ol.list p.sequence p })) ∧
      (p.sequence ≤ ol.seq →
        OrderList.insert ol p = some .duplicate ∧
          ReceiveThread.order_output ol p = none) := by
  refine ⟨?_, ?_, ?_⟩
  · intro h
    have hins : OrderList.insert ol p =
        some
          (.ordered (p :: (OrderList.drainLoop p.sequence ol.list).2.2)
            { seq := (OrderList.drainLoop p.sequence ol.list).1
              list := (OrderList.drainLoop p.sequence ol.list).2.1 }) := by
      unfold OrderList.insert
      rw [if_neg (by omega), if_neg (by omega), if_pos (by omega)]
    exact ⟨hins, OrderList.drainLoop_spec p.sequence ol.list⟩
  · intro h
    unfold OrderList.insert
    rw [if_neg (by omega), if_pos (by omega)]
  · intro h
    have hins : OrderList.insert ol p = some .duplicate := by
      unfold OrderList.insert
      rw [if_neg (by omega), if_neg (by omega), if_neg (by omega)]
    refine ⟨hins, ?_⟩
    unfold ReceiveThread.order_output
    rw [hins]

/-- C4 counterexample to the claim as stated: with `next_expected = 6`
(`ol.seq = 5`) and an arriving packet of sequence `3 < 6`, the receive
thread's `order_output` does not drop the packet and continue — it hits
`panic!("Sequence number too old")` (modelled `none`), killing the
receive thread. -/
theorem order_output_old_sequence_panics :
    ReceiveThread.order_output (OrderList.new 5) (Packet.new PType.Data 3) = none := by
  decide

/-- Witness for C4 (amended) at a concrete input: sequence 3 against
`ol.seq = 5` is reported as the duplicate error `Err(0)`. -/
theorem order_insert_cases_witness :
    OrderList.insert (OrderList.new 5) (Packet.new PType.Data 3) =
      some OrderInsertResult.duplicate :=
  ((order_insert_cases (OrderList.new 5) (Packet.new PType.Data 3)
    (by decide)).2.2 (by decide)).1

/-! ### Receive-loop routing (`ReceiveThread::start`) -/

/-- `needs_ack` from `src/link/mod.rs`: `Data` and `KeyExchange`
require acknowledgement; `AckOnly` and everything else do not. -/
def needs_ack (packet : Packet) : Bool :=
  match packet.flags.p_type with
  | PType.Data => true
  | PType.KeyExchange => true
  | PType.AckOnly => false
  | _ => false

/-- State shared by one receive-loop iteration. -/
structure RecvState where
  ack_check : AcknowledgementCheck
  ack_list : AcknowledgementList
  order_list : OrderList
deriving DecidableEq

/-- `ReceiveThread::output`: `AckOnly` packets are consumed; every other
packet goes to `order_output`.  The boolean records whether the packet
was routed into `OrderList::insert`. -/
def ReceiveThread.output (ol : OrderList) (p : Packet) :
    Option (OrderList × List Packet × Bool) :=
  match p.flags.p_type with
  | PType.AckOnly => some (ol, [], false)
  | _ =>
    match ReceiveThread.order_output ol p with
    | none => none
    | some r => some (r.1, r.2, true)

/-- One iteration of the `ReceiveThread::start` loop body for a parsed
packet: `check_ack` (duplicate test against the pre-insert `ack_list`),
`recv_ack` (`ack_check.acknowledge`), `send_ack` (`ack_list.insert` when
`needs_ack`), and `output` when not a duplicate.  `none` models a panic
in `insert` or `order_output`; the returned list is what is forwarded to
the receive queue and the boolean is `output`'s routing flag. -/
def receiveStep (st : RecvState) (packet : Packet) :
    Option (RecvState × List Packet × Bool) :=
  match (if needs_ack packet then st.ack_list.insert packet.sequence
      else some st.ack_list) with
  | none => none
  | some ack_list' =>
    if st.ack_list.check packet.sequence then
      some
        ({ ack_check := st.ack_check.acknowledge packet.ack
           ack_list := ack_list'
           order_list := st.order_list }, [], false)
    else
      match ReceiveThread.output st.order_list packet with
      | none => none
      | some olr =>
        some
          ({ ack_check := st.ack_check.acknowledge packet.ack
             ack_list := ack_list'
             order_list := olr.1 }, olr.2.1, olr.2.2)

/-! ### C10: the unguarded `sequence − 1` and the routing into it -/

/-- C10 (amended): `OrderList::insert` is well-defined exactly for
`sequence ≥ 1` (at `sequence = 0` the `u32` subtraction
`packet.sequence - 1` underflows), and the receive thread routes every
non-duplicate parsed packet *whose type is not `AckOnly`* into
`OrderList::insert` (`AckOnly` packets are consumed by `output` without
touching the ordering buffer). -/
theorem order_insert_defined_iff_and_routed :
    (∀ (ol : OrderList) (q : Packet),
      (OrderList.insert ol q).isSome = true ↔ 1 ≤ q.sequence) ∧
      (∀ (st : RecvState) (p : Packet) (r : RecvState × List Packet × Bool),
        st.ack_list.check p.sequence = false →
        p.flags.p_type ≠ PType.AckOnly →
        receiveStep st p = some r → r.2.2 = true) := by
  constructor
  · intro ol q
    by_cases h0 : q.sequence = 0
    · simp [OrderList.insert, h0]
    · unfold OrderList.insert
      rw [if_neg h0]
      split_ifs <;> simp <;> omega
  · intro st p r hdup hty hstep
    unfold receiveStep at hstep
    cases hins : (if needs_ack p then st.ack_list.insert p.sequence
        else some st.ack_list) with
    | none => rw [hins] at hstep; cases hstep
    | some ack_list' =>
      rw [hins] at hstep
      dsimp only at hstep
      rw [if_neg (by simp [hdup])] at hstep
      unfold ReceiveThread.output at hstep
      cases hpt : p.flags.p_type with
      | AckOnly => exact absurd hpt hty
      | Data =>
        rw [hpt] at hstep
        cases ho : ReceiveThread.order_output st.order_list p with
        | none => rw [ho] at hstep; cases hstep
        | some olr =>
          rw [ho] at hstep
          obtain rfl := Option.some.inj hstep
          rfl
      | Initiation =>
        rw [hpt] at hstep
        cases ho : ReceiveThread.order_output st.order_list p with
        | none => rw [ho] at hstep; cases hstep
        | some olr =>
          rw [ho] at hstep
          obtain rfl := Option.some.inj hstep
          rfl
      | KeyExchange =>
        rw [hpt] at hstep
        cases ho : ReceiveThread.order_output st.order_list p with
        | none => rw [ho] at hstep; cases hstep
        | some olr =>
          rw [ho] at hstep
          obtain rfl := Option.some.inj hstep
          rfl
      | Extended =>
        rw [hpt] at hstep
        cases ho : ReceiveThread.order_output st.order_list p with
        | none => rw [ho] at hstep; cases hstep
        | some olr =>
          rw [ho] at hstep
          obtain rfl := Option.some.inj hstep
          rfl

/-- Evaluation helper: `update_begin` is the identity when the next
value is not checked. -/
theorem AcknowledgementCheck.update_begin_of_not (c : AcknowledgementCheck)
    (h : c.check (c.begin + 1) = false) : c.update_begin = c := by
  unfold AcknowledgementCheck.update_begin
  rw [dif_neg (by simp [h])]

/-- Evaluation helper: `update_begin` is the identity when the next
value is not checked. -/
theorem AcknowledgementList.update_begin_of_not_list (l : AcknowledgementList)
    (h : l.check (l.ack_begin + 1) = false) : l.update_begin = l := by
  unfold AcknowledgementList.update_begin
  rw [dif_neg (by simp [h])]

/-- Evaluation of `acknowledge` at the all-zero summary carried by
`Packet::new`: no catch-up, and the single window offset 0 is not above
the threshold, so nothing changes. -/
theorem ackcheck_acknowledge_zero_eval :
    AcknowledgementCheck.acknowledge { begin := 0, list := [] }
        { ack_begin := 0, ack_end := 0, miss_count := 0, miss := [] } =
      ({ begin := 0, list := [] } : AcknowledgementCheck) := by
  have hub : AcknowledgementCheck.update_begin { begin := 0, list := [] } =
      { begin := 0, list := [] } :=
    AcknowledgementCheck.update_begin_of_not _ (by decide)
  unfold AcknowledgementCheck.acknowledge
  simp [ackBody, AcknowledgementCheck.insert, lookupA, hub, List.range_succ]

/-- C10 counterexample to the claim as stated: the datagram
`[0,0,0,5, 0,0,0,0, 0, 0x10, 0]` parses to an `AckOnly` packet with
sequence 5, which is *not* a duplicate for the shown state
(`check 5 = false`), yet the receive thread does not feed it into
`OrderList::insert`: the step completes with the ordering buffer
untouched, nothing emitted, and the routing flag `false`. -/
theorem receive_ackonly_not_fed :
    Packet.fromBytes [0, 0, 0, 5, 0, 0, 0, 0, 0, 16, 0] =
        some (Packet.new PType.AckOnly 5) ∧
      (AcknowledgementList.new 3).check 5 = false ∧
      receiveStep
          { ack_check := AcknowledgementCheck.new 0
            ack_list := AcknowledgementList.new 3
            order_list := OrderList.new 3 }
          (Packet.new PType.AckOnly 5) =
        some
          ({ ack_check := AcknowledgementCheck.new 0
             ack_list := AcknowledgementList.new 3
             order_list := OrderList.new 3 }, [], false) := by
  refine ⟨by decide, by decide, ?_⟩
  have hack := ackcheck_acknowledge_zero_eval
  have hstep :
      receiveStep
          { ack_check := AcknowledgementCheck.new 0
            ack_list := AcknowledgementList.new 3
            order_list := OrderList.new 3 }
          (Packet.new PType.AckOnly 5) =
        some
          ({ ack_check :=
              AcknowledgementCheck.acknowledge { begin := 0, list := [] }
                { ack_begin := 0, ack_end := 0, miss_count := 0, miss := [] }
             ack_list := AcknowledgementList.new 3
             order_list := OrderList.new 3 }, [], false) := rfl
  rw [hstep, hack]
  rfl

/-- Witness for C10 (amended) at concrete inputs: a packet with
sequence 0 makes `insert` undefined (both sides of the iff false), and a
non-duplicate `Data` packet with sequence 5 is routed into the ordering
buffer (flag `true`). -/
theorem order_insert_defined_iff_and_routed_witness :
    ((OrderList.insert (OrderList.new 3) (Packet.new PType.Data 0)).isSome = true ↔
        1 ≤ (Packet.new PType.Data 0).sequence) ∧
      ((({ ack_check := { begin := 0, list := [] },
           ack_list :=
             { list := [(5, true), (3, true)], ack_begin := 3, ack_end := 2 },
           order_list := { seq := 3, list := [(5, Packet.new PType.Data 5)] } } :
          RecvState), ([] : List Packet), true) :
        RecvState × List Packet × Bool).2.2 = true := by
  constructor
  · exact order_insert_defined_iff_and_routed.1 (OrderList.new 3) (Packet.new PType.Data 0)
  · refine order_insert_defined_iff_and_routed.2
      { ack_check := AcknowledgementCheck.new 0
        ack_list := AcknowledgementList.new 3
        order_list := OrderList.new 3 }
      (Packet.new PType.Data 5) _ (by decide) (by decide) ?_
    have hins :
        AcknowledgementList.update_begin
            { list := insertA (AcknowledgementList.new 3).list 5 true
              ack_begin := 3
              ack_end :=
                if (AcknowledgementList.new 3).ack_end < 5 - 3 then 5 - 3
                else (AcknowledgementList.new 3).ack_end } =
          ({ list := [(5, true), (3, true)], ack_begin := 3, ack_end := 2 } :
            AcknowledgementList) := by
      rw [AcknowledgementList.update_begin_of_not_list _ (by decide)]
      decide
    have hstep :
        receiveStep
            { ack_check := AcknowledgementCheck.new 0
              ack_list := AcknowledgementList.new 3
              order_list := OrderList.new 3 }
            (Packet.new PType.Data 5) =
          some
            ({ ack_check :=
                AcknowledgementCheck.acknowledge { begin := 0, list := [] }
                  { ack_begin := 0, ack_end := 0, miss_count := 0, miss := [] }
               ack_list :=
                AcknowledgementList.update_begin
                  { list := insertA (AcknowledgementList.new 3).list 5 true
                    ack_begin := 3
                    ack_end :=
                      if (AcknowledgementList.new 3).ack_end < 5 - 3 then 5 - 3
                      else (AcknowledgementList.new 3).ack_end }
               order_list := { seq := 3, list := [(5, Packet.new PType.Data 5)] } },
              [], true) := rfl
    rw [hstep, hins, ackcheck_acknowledge_zero_eval]

/-! ## Send loop (`src/link/sendthread.rs`) -/

/-- `AcknowledgementList::get`: offsets `1..=ack_end` whose map entry is
not `true` become the `miss` list. -/
def AcknowledgementList.get (l : AcknowledgementList) : Acknowledgement :=
  { ack_begin := l.ack_begin
    ack_end := l.ack_end
    miss_count :=
      ((List.range' 1 l.ack_end).filter
        (fun i =>
          match lookupA l.list (i + l.ack_begin) with
          | some true => false
          | _ => true)).length
    miss :=
      (List.range' 1 l.ack_end).filter
        (fun i =>
          match lookupA l.list (i + l.ack_begin) with
          | some true => false
          | _ => true) }

/-- The `link` options of `Config` used by `SendThread`
(`src/config.rs`: `window_size : u8`, `max_retries : i16`,
`retry_delay : u64`, `ack_only_time : u64`). -/
structure LinkConfig where
  window_size : Nat
  max_retries : Int
  retry_delay : Nat
  ack_only_time : Nat
deriving DecidableEq

/-- The state owned or shared by `SendThread` (queues modelled as lists
in arrival order; `primary_queue.try_recv` pops the head). -/
structure SendState where
  batch_queue : List Packet
  primary_queue : List Packet
  send_seq : Nat
  is_empty : Bool
  stop_flag : Bool
  ack_list : AcknowledgementList
  ack_check : AcknowledgementCheck
deriving DecidableEq

/-- `SendThread::check_ack`: only packets that need acknowledgement are
tested against the `AcknowledgementCheck`. -/
def SendThread.check_ack (c : AcknowledgementCheck) (packet : Packet) : Bool :=
  if needs_ack packet then c.check packet.sequence else false

/-- `SendThread::ack_packet`: reads `send_seq` under the lock and builds
an `AckOnly` packet with that sequence; the counter is *not*
incremented (the comment "Increase sequence number" notwithstanding). -/
def SendThread.ack_packet (send_seq : Nat) : Packet :=
  Packet.new PType.AckOnly send_seq

/-- The meta marker pushed by the send loop: an in-memory `Extended`
packet with `is_meta` set, never serialized. -/
def metaPacket (retry_count : Int) (delay_ms : Nat) : Packet :=
  (Packet.new PType.Extended 0).set_meta
    { delay_ms := delay_ms, retry_count := retry_count }

/-- One iteration of the `SendThread::start` loop body (after the stop
check; sleeps are not modelled — they do not change state).  Returns
the new state and the packets written to the socket this iteration. -/
def SendThread.step (cfg : LinkConfig) (st : SendState) : SendState × List Packet :=
  match st.batch_queue with
  | packet :: rest =>
    if packet.is_meta then
      if rest.isEmpty then ({ st with batch_queue := rest }, [])
      else if cfg.max_retries ≤ packet.meta.retry_count + 1 then
        ({ st with batch_queue := rest, stop_flag := true }, [])
      else
        ({ st with
            batch_queue :=
              rest ++ [metaPacket (packet.meta.retry_count + 1) cfg.retry_delay] },
          [])
    else if SendThread.check_ack st.ack_check packet then
      ({ st with batch_queue := rest }, [])
    else
      ({ st with
          batch_queue :=
            rest ++
              (if needs_ack (packet.add_ack st.ack_list.get) then
                [packet.add_ack st.ack_list.get]
              else []) },
        [packet.add_ack st.ack_list.get])
  | [] =>
    if (st.primary_queue.take cfg.window_size).isEmpty then
      ({ st with
          batch_queue :=
            [SendThread.ack_packet st.send_seq, metaPacket (-1) cfg.ack_only_time]
          primary_queue := st.primary_queue.drop cfg.window_size
          is_empty := true },
        [])
    else
      ({ st with
          batch_queue :=
            st.primary_queue.take cfg.window_size ++
              [metaPacket (-1) cfg.retry_delay]
          primary_queue := st.primary_queue.drop cfg.window_size
          is_empty := false },
        [])

/-! ### C9: idle keepalive -/

/-- C9: when the send loop refills and both the batch and the primary
queue are empty, exactly one `AckOnly` packet with the *current*
`send_seq` is enqueued (plus the meta marker), `send_seq` is unchanged,
and the following iteration transmits that packet — whose sequence is
still `send_seq` — again without incrementing the counter and without
re-queuing it. -/
theorem sendthread_keepalive (cfg : LinkConfig) (st : SendState)
    (hb : st.batch_queue = []) (hp : st.primary_queue = []) :
    (SendThread.step cfg st).1.send_seq = st.send_seq ∧
      (SendThread.step cfg st).1.batch_queue =
        [SendThread.ack_packet st.send_seq, metaPacket (-1) cfg.ack_only_time] ∧
      (SendThread.step cfg st).2 = [] ∧
      (SendThread.ack_packet st.send_seq).sequence = st.send_seq ∧
      (SendThread.step cfg (SendThread.step cfg st).1).2 =
        [(SendThread.ack_packet st.send_seq).add_ack
          (SendThread.step cfg st).1.ack_list.get] ∧
      ((SendThread.ack_packet st.send_seq).add_ack
          (SendThread.step cfg st).1.ack_list.get).sequence = st.send_seq ∧
      (SendThread.step cfg (SendThread.step cfg st).1).1.send_seq = st.send_seq ∧
      (SendThread.step cfg (SendThread.step cfg st).1).1.batch_queue =
        [metaPacket (-1) cfg.ack_only_time] := by
  have h1 : SendThread.step cfg st =
      ({ st with
          batch_queue :=
            [SendThread.ack_packet st.send_seq, metaPacket (-1) cfg.ack_only_time]
          primary_queue := st.primary_queue.drop cfg.window_size
          is_empty := true },
        []) := by
    unfold SendThread.step
    rw [hb, hp]
    simp
  rw [h1]
  refine ⟨rfl, rfl, rfl, rfl, ?_⟩
  have hmeta : (SendThread.ack_packet st.send_seq).is_meta = false := rfl
  have hchk :
      ∀ c, SendThread.check_ack c (SendThread.ack_packet st.send_seq) = false := by
    intro c
    unfold SendThread.check_ack needs_ack SendThread.ack_packet Packet.new
    simp
  have hna :
      ∀ a, needs_ack ((SendThread.ack_packet st.send_seq).add_ack a) = false := by
    intro a
    unfold needs_ack SendThread.ack_packet Packet.new Packet.add_ack
    simp
  unfold SendThread.step
  simp only [hmeta, hchk, hna, Bool.false_eq_true, if_false, List.append_nil]
  simp
  rfl

/-- Witness for C9 at a concrete idle state (`send_seq = 7`, empty
queues). -/
theorem sendthread_keepalive_witness :
    (SendThread.step
        { window_size := 20
          max_retries := 10
          retry_delay := 100
          ack_only_time := 1000 }
        { batch_queue := []
          primary_queue := []
          send_seq := 7
          is_empty := false
          stop_flag := false
          ack_list := AcknowledgementList.new 0
          ack_check := AcknowledgementCheck.new 0 }).1.send_seq = 7 :=
  (sendthread_keepalive _ _ rfl rfl).1

/-! ## Decryption worker (`src/link/decryptionthread.rs`) -/

/-- `DecryptionThread::start`, run over the queue of packets available
on its input channel (`decrypt` abstracts
`AetherCipher::decrypt_bytes`, `none` being a failed AEAD decryption).
For each packet the payload is decrypted, the `enc` flag cleared and
the packet forwarded; on a decryption failure the `?` operator returns
the error from `start`, so the loop stops — the result's boolean
records whether the worker exited with an error.  The worker never
touches the link's stop flag. -/
def DecryptionThread.run (decrypt : List Nat → Option (List Nat)) :
    List Packet → List Packet × Bool
  | [] => ([], false)
  | p :: rest =>
    match decrypt p.payload with
    | none => ([], true)
    | some d =>
      ((Packet.set_enc { p with payload := d } false) ::
          (DecryptionThread.run decrypt rest).1,
        (DecryptionThread.run decrypt rest).2)

/-- A decryption function that fails exactly on the payload `[0]` and
is the identity elsewhere. -/
def decFailsOnZero (b : List Nat) : Option (List Nat) :=
  if b = [0] then none else some b

/-! ### C7: decryption failure handling -/

/-- C7 counterexample to the claim as stated: with a cipher failing only
on the first packet's payload `[0]`, the worker forwards *nothing* and
exits with the error — the second packet, although decryptable (second
conjunct), is never processed.  So a failed decryption is not fatal
"only to the offending packet". -/
theorem decryption_failure_kills_worker :
    DecryptionThread.run decFailsOnZero
        [(Packet.new PType.Data 1).append_payload [0],
          (Packet.new PType.Data 2).append_payload [1]] = ([], true) ∧
      DecryptionThread.run decFailsOnZero
          [(Packet.new PType.Data 2).append_payload [1]] =
        ([Packet.set_enc ((Packet.new PType.Data 2).append_payload [1]) false],
          false) := by
  constructor
  · decide
  · decide

/-- C7 (amended): a failed AEAD decryption drops the offending packet
and terminates the decryption worker with the error; no subsequent
packet is processed.  (The worker does not set the link's stop flag —
the model has no write to it.) -/
theorem decryption_failure_stops_worker (decrypt : List Nat → Option (List Nat))
    (p : Packet) (rest : List Packet) (h : decrypt p.payload = none) :
    DecryptionThread.run decrypt (p :: rest) = ([], true) := by
  unfold DecryptionThread.run
  rw [h]

/-- Witness for C7 (amended) at a concrete input. -/
theorem decryption_failure_stops_worker_witness :
    DecryptionThread.run decFailsOnZero
        [(Packet.new PType.Data 1).append_payload [0]] = ([], true) :=
  decryption_failure_stops_worker decFailsOnZero
    ((Packet.new PType.Data 1).append_payload [0]) [] (by decide)

/-! ## Authentication (`src/peer/authentication.rs`) -/

/-- What `authenticate` hands to `link.send` as the challenge: the raw
nonce itself (`link.send(nonce.clone())`); the adjacent
`TODO: encrypt nonce with public key` comment marks the missing
encryption. -/
def authChallengeSent (nonce : List Nat) : List Nat := nonce

/-- `RSA_SIZE = 1024` bits (`src/identity/mod.rs`), so `rsa.size()` is
128 bytes; `PublicId::public_encrypt` fills and returns a buffer of
exactly that length (`vec![0; self.rsa.size()]`, returned whole). -/
def RSA_SIZE_BYTES : Nat := 128

/-! ### C8: the transmitted challenge -/

/-- C8 (code_bug evaluation): the bytes given to `link.send` by
`authenticate` are the 32-byte nonce itself (`gen_nonce(32)`), which can
never equal `peer_public_encrypt(n)` — every output of
`PublicId::public_encrypt` has `rsa.size() = 128` bytes.  The claim
(and §4.6 of the spec) requires the challenge to be sent encrypted;
the code's own TODO comments mark the encryption as missing. -/
theorem auth_challenge_sent_unencrypted (encrypt : List Nat → List Nat)
    (nonce : List Nat) (hn : nonce.length = 32)
    (he : ∀ x, (encrypt x).length = RSA_SIZE_BYTES) :
    authChallengeSent nonce ≠ encrypt nonce := by
  intro h
  have hl := he nonce
  rw [← h] at hl
  unfold authChallengeSent at hl
  rw [hn] at hl
  exact absurd hl (by decide)

/-- Witness for C8 at a concrete nonce and a concrete length-128
encryption function. -/
theorem auth_challenge_sent_unencrypted_witness :
    authChallengeSent (List.replicate 32 0) ≠
      (fun _ => List.replicate 128 0) (List.replicate 32 0) :=
  auth_challenge_sent_unencrypted (fun _ => List.replicate 128 0)
    (List.replicate 32 0) (by simp)
    (fun x => by simp [RSA_SIZE_BYTES])
